import Mathlib

/-!
A shallow embedding of the procedural log generator from src/logs.py,
together with proofs about its geometry pipeline.  Float operations are
modelled over the rationals, with the transcendental primitives (sin,
cos, Perlin noise, float power, the constant pi) abstracted as
parameters of the generator, and every float operation that can raise a
Python ZeroDivisionError modelled in the Option monad.
-/

namespace ProcLog

/-- A 3D point or vector with rational coordinates (models mathutils.Vector). -/
structure Vec3 where
  x : ℚ
  y : ℚ
  z : ℚ
deriving DecidableEq

instance : Add Vec3 :=
  ⟨fun a b => ⟨a.x + b.x, a.y + b.y, a.z + b.z⟩⟩

/-- A 3x3 matrix given by rows (models the rotation part of mathutils.Matrix). -/
structure Mat3 where
  r0 : Vec3
  r1 : Vec3
  r2 : Vec3
deriving DecidableEq

/-- Matrix application to a vector: models rot @ loc_v in logs.py. -/
def matApply (M : Mat3) (v : Vec3) : Vec3 :=
  ⟨M.r0.x * v.x + M.r0.y * v.y + M.r0.z * v.z,
   M.r1.x * v.x + M.r1.y * v.y + M.r1.z * v.z,
   M.r2.x * v.x + M.r2.y * v.y + M.r2.z * v.z⟩

/-- The math primitives used by logs.py, kept abstract: sin and cos from
the math module, the coherent noise function mathutils.noise.noise, the
float power operator, and the constant math.pi. -/
structure MathCtx where
  msin : ℚ → ℚ
  mcos : ℚ → ℚ
  mnoise : Vec3 → ℚ
  mpow : ℚ → ℚ → ℚ
  mpi : ℚ

/-- Python float division: raises ZeroDivisionError on a zero divisor. -/
def pydiv (a b : ℚ) : Option ℚ :=
  if b = 0 then none else some (a / b)

/-- Floor of a rational, computed on numerator and denominator. -/
def ratFloor (q : ℚ) : ℤ := q.num.fdiv (q.den : ℤ)

/-- Python float modulo x % y = x - y*floor(x/y); raises on y = 0. -/
def pymod (a b : ℚ) : Option ℚ :=
  if b = 0 then none else some (a - b * (ratFloor (a / b) : ℚ))

/-- math.radians: degree to radian conversion, deg * pi / 180. -/
def pyRadians (mpi deg : ℚ) : ℚ := deg * mpi / 180

/-- The shape parameters unpacked by generate_proc_log (logs.py lines
216-239).  Integer parameters are natural numbers, float parameters are
rationals, string parameters are strings. -/
structure ShapeParams where
  length : ℚ
  radius_start : ℚ
  radius_center : ℚ
  radius_end : ℚ
  rings : ℕ
  verts_per_ring : ℕ
  taper_shape : String
  taper_rate : ℚ
  curve_count : ℕ
  curve_strength : ℚ
  twist_angle : ℚ
  twist_direction : String
  ellipse_ratio : ℚ
  oval_region_fraction : ℚ
  eccentricity_offset : ℚ
  eccentricity_angle : ℚ
  groove_count : ℕ
  groove_width : ℚ
  groove_depth : ℚ
  noise_scale : ℚ
  bark_roughness_depth : ℚ
  bark_roughness_level : ℚ
  flange_count : ℕ
  flange_width : ℚ

/-- Tapered base radius of the ring at normalized position t
(logs.py lines 246-253): linear, exponential, else quadratic blend. -/
def taperRadius (c : MathCtx) (p : ShapeParams) (t : ℚ) : ℚ :=
  if p.taper_shape = "linear" then
    p.radius_start + (p.radius_end - p.radius_start) * t
  else if p.taper_shape = "exponential" then
    p.radius_start + (p.radius_end - p.radius_start) * c.mpow t p.taper_rate
  else
    (1 - t) ^ 2 * p.radius_start + 2 * (1 - t) * t * p.radius_center
      + t ^ 2 * p.radius_end

/-- Ellipse-or-circle step (logs.py lines 256-259).  The division
radius / ellipse_ratio is Python float division, hence Option. -/
def ellipseRadii (p : ShapeParams) (radius t : ℚ) : Option (ℚ × ℚ) :=
  if t < p.oval_region_fraction then
    (pydiv radius p.ellipse_ratio).bind fun ry =>
      some (radius * p.ellipse_ratio, ry)
  else
    some (radius, radius)

/-- Flange bump step (logs.py lines 262-264): Python
if flange_count and (i % max(1, rings // flange_count)) == 0. -/
def flangeAdjust (p : ShapeParams) (i : ℕ) (r : ℚ × ℚ) : ℚ × ℚ :=
  if p.flange_count ≠ 0 ∧ i % max 1 (p.rings / p.flange_count) = 0 then
    (r.1 + p.flange_width, r.2 + p.flange_width)
  else r

/-- Per-ring radii rx, ry before the per-vertex loop: taper, then
ellipse, then flange (logs.py lines 246-264). -/
def ringRadii (c : MathCtx) (p : ShapeParams) (i : ℕ) (t : ℚ) : Option (ℚ × ℚ) :=
  (ellipseRadii p (taperRadius c p t) t).map (flangeAdjust p i)

/-- Centerline sinusoidal curve offset (logs.py lines 267-270). -/
def centerline (c : MathCtx) (p : ShapeParams) (t : ℚ) : Vec3 :=
  ⟨p.curve_strength * c.msin (2 * c.mpi * (p.curve_count : ℚ) * t),
   p.curve_strength * c.mcos (2 * c.mpi * (p.curve_count : ℚ) * t),
   p.length * t⟩

/-- Constant eccentric offset in the XY plane (logs.py lines 273-275). -/
def eccOffset (c : MathCtx) (p : ShapeParams) : Vec3 :=
  ⟨p.eccentricity_offset * c.mcos (pyRadians c.mpi p.eccentricity_angle),
   p.eccentricity_offset * c.msin (pyRadians c.mpi p.eccentricity_angle),
   0⟩

/-- Rotation matrix about a named axis: models
Matrix.Rotation(angle, 4, twist_direction.upper()), which raises on an
axis name other than X, Y, Z.  The upper() call is modelled by also
accepting the lowercase names; any other string raises, hence none. -/
def rotationMatrix (c : MathCtx) (angle : ℚ) (axis : String) : Option Mat3 :=
  let s := c.msin angle
  let co := c.mcos angle
  match axis with
  | "X" => some ⟨⟨1, 0, 0⟩, ⟨0, co, -s⟩, ⟨0, s, co⟩⟩
  | "x" => some ⟨⟨1, 0, 0⟩, ⟨0, co, -s⟩, ⟨0, s, co⟩⟩
  | "Y" => some ⟨⟨co, 0, s⟩, ⟨0, 1, 0⟩, ⟨-s, 0, co⟩⟩
  | "y" => some ⟨⟨co, 0, s⟩, ⟨0, 1, 0⟩, ⟨-s, 0, co⟩⟩
  | "Z" => some ⟨⟨co, -s, 0⟩, ⟨s, co, 0⟩, ⟨0, 0, 1⟩⟩
  | "z" => some ⟨⟨co, -s, 0⟩, ⟨s, co, 0⟩, ⟨0, 0, 1⟩⟩
  | _ => none

/-- Per-vertex radii r_x, r_y at angular sample theta: groove carving
followed by bark-roughness noise (logs.py lines 287-295).  The
angular-period division 2*pi/groove_count and the float modulo both
raise on zero, hence Option. -/
def vertexRadii (c : MathCtx) (p : ShapeParams) (rx ry t theta : ℚ) :
    Option (ℚ × ℚ) :=
  (pydiv (2 * c.mpi) (p.groove_count : ℚ)).bind fun ang_per =>
    (pymod (theta - ang_per / 2) ang_per).bind fun m =>
      let off := m - ang_per / 2
      let groove : ℚ := if |off| < p.groove_width / 2 then -p.groove_depth else 0
      let nval := c.mnoise ⟨t * p.noise_scale, theta * p.noise_scale, 0⟩
      let rough := nval * p.bark_roughness_depth * p.bark_roughness_level
      some (rx + rough + groove, ry + rough + groove)

/-- The ring-local (pre-rotation, pre-translation) point of angular
sample j: Vector((r_x*cos(theta), r_y*sin(theta), 0)) at
theta = 2*pi*j/verts_per_ring (logs.py lines 283-296). -/
def localVertex (c : MathCtx) (p : ShapeParams) (rx ry t : ℚ) (j : ℕ) :
    Option Vec3 :=
  (pydiv (2 * c.mpi * (j : ℚ)) ((p.verts_per_ring : ℕ) : ℚ)).bind fun theta =>
    (vertexRadii c p rx ry t theta).bind fun rr =>
      some ⟨rr.1 * c.mcos theta, rr.2 * c.msin theta, 0⟩

/-- Option-valued traversal of a list, failing as soon as one element
fails; the shape of the ring and vertex loops of logs.py. -/
def mapOpt {α β : Type _} (f : α → Option β) : List α → Option (List β)
  | [] => some []
  | a :: l =>
    (f a).bind fun b => (mapOpt f l).bind fun bs => some (b :: bs)

/-- One cross-section ring in world coordinates (logs.py lines 242-299):
t = i/rings, radii, centerline plus eccentric offset, twist rotation,
then the verts_per_ring world points rot @ loc_v + center. -/
def buildRing (c : MathCtx) (p : ShapeParams) (i : ℕ) : Option (List Vec3) :=
  (pydiv (i : ℚ) ((p.rings : ℕ) : ℚ)).bind fun t =>
    (ringRadii c p i t).bind fun rr =>
      let center := centerline c p t + eccOffset c p
      (rotationMatrix c (pyRadians c.mpi p.twist_angle * t)
          p.twist_direction).bind fun rot =>
        mapOpt
          (fun j => (localVertex c p rr.1 rr.2 t j).map
            fun lv => matApply rot lv + center)
          (List.range p.verts_per_ring)

/-- The trunk mesh: vertex positions in bmesh creation order
(ring-major), quad faces as lists of vertex indices. -/
structure LogMesh where
  verts : List Vec3
  faces : List (List ℕ)
deriving DecidableEq

/-- The geometry core of generate_proc_log (logs.py lines 242-313):
builds the rings+1 cross-section rings, then stitches consecutive rings
into quads [A[j], A[(j+1)%n], B[(j+1)%n], B[j]].  Ring i vertex j has
global index i*verts_per_ring + j, following bmesh creation order. -/
def generate_proc_log (c : MathCtx) (p : ShapeParams) : Option LogMesh :=
  (mapOpt (buildRing c p) (List.range (p.rings + 1))).bind fun rings_verts =>
    some
      { verts := rings_verts.flatten
        faces :=
          ((List.range p.rings).map fun i =>
            (List.range p.verts_per_ring).map fun j =>
              [i * p.verts_per_ring + j,
               i * p.verts_per_ring + (j + 1) % p.verts_per_ring,
               (i + 1) * p.verts_per_ring + (j + 1) % p.verts_per_ring,
               (i + 1) * p.verts_per_ring + j]).flatten }

/-- An end cap: its vertices in insertion order and its single n-gon
face as a list of vertex indices in winding order. -/
structure CapMesh where
  verts : List Vec3
  face : List ℕ
deriving DecidableEq

/-- make_cap from logs.py lines 390-401: vertices are created in coords
order, and the face walks them reversed when flip is set. -/
def make_cap (coords : List Vec3) (flip : Bool) : CapMesh :=
  { verts := coords
    face :=
      if flip then (List.range coords.length).reverse
      else List.range coords.length }

/-- The start cap built by the main loop (logs.py lines 387, 403):
make_cap over the first verts_per_ring vertex coordinates, flipped. -/
def cap_start (m : LogMesh) (n : ℕ) : CapMesh :=
  make_cap (m.verts.take n) true

/-- The end cap built by the main loop (logs.py lines 388, 404):
make_cap over the last verts_per_ring vertex coordinates, unflipped. -/
def cap_end (m : LogMesh) (n : ℕ) : CapMesh :=
  make_cap (m.verts.drop (m.verts.length - n)) false

/-! Concrete fixtures used by the witness theorems: a toy math context
with simple total primitives, and small parameter records. -/

/-- Toy math context for witnesses: sin is identically zero, cos
identically one, noise identically zero, power identically one, and pi
is the stand-in constant 3. -/
def wCtx : MathCtx :=
  { msin := fun _ => 0
    mcos := fun _ => 1
    mnoise := fun _ => 0
    mpow := fun _ _ => 1
    mpi := 3 }

/-- A small valid parameter record: one segment, three vertices per
ring, quadratic taper with constant radius 1/2. -/
def wParams : ShapeParams :=
  { length := 4
    radius_start := 1/2
    radius_center := 1/2
    radius_end := 1/2
    rings := 1
    verts_per_ring := 3
    taper_shape := "quadratic"
    taper_rate := 8
    curve_count := 0
    curve_strength := 0
    twist_angle := 0
    twist_direction := "Z"
    ellipse_ratio := 1
    oval_region_fraction := 0
    eccentricity_offset := 0
    eccentricity_angle := 0
    groove_count := 1
    groove_width := 0
    groove_depth := 0
    noise_scale := 0
    bark_roughness_depth := 0
    bark_roughness_level := 0
    flange_count := 0
    flange_width := 0 }

/-- The mesh generated from the witness fixtures. -/
def wMesh : LogMesh :=
  (generate_proc_log wCtx wParams).getD ⟨[], []⟩

/-- wParams with groove carving disabled, the boundary case of C2. -/
def pGroove0 : ShapeParams :=
  { wParams with groove_count := 0 }

/-- wParams with ellipse_ratio above its documented maximum of 5.0,
flowing into every ring via oval_region_fraction = 1; rings and
verts_per_ring stay inside their documented ranges. -/
def pBadRatio : ShapeParams :=
  { wParams with
      rings := 3
      ellipse_ratio := 10
      oval_region_fraction := 1 }

/-- The mesh the generator happily builds from the out-of-range record. -/
def wMeshBad : LogMesh :=
  (generate_proc_log wCtx pBadRatio).getD ⟨[], []⟩

/-- Toy context whose noise function is identically one. -/
def wCtx9 : MathCtx :=
  { wCtx with mnoise := fun _ => 1 }

/-- wParams with bark roughness switched on at unit amplitude. -/
def pNoise : ShapeParams :=
  { wParams with
      noise_scale := 1
      bark_roughness_depth := 1
      bark_roughness_level := 1 }

/-- wParams with two segments and one flange of width 1/4. -/
def pFlange : ShapeParams :=
  { wParams with
      rings := 2
      flange_count := 1
      flange_width := 1/4 }

/-- The identity rotation matrix produced from the toy context. -/
def wRot : Mat3 :=
  ⟨⟨1, 0, 0⟩, ⟨0, 1, 0⟩, ⟨0, 0, 1⟩⟩

/-! Helper lemmas about the Option traversal and list indexing. -/

theorem Vec3.add_def (a b : Vec3) :
    a + b = ⟨a.x + b.x, a.y + b.y, a.z + b.z⟩ := rfl

theorem mapOpt_length {α β : Type _} (f : α → Option β) (l : List α) :
    ∀ r, mapOpt f l = some r → r.length = l.length := by
  induction l with
  | nil =>
    intro r h
    simp only [mapOpt, Option.some_inj] at h
    simp [← h]
  | cons a l ih =>
    intro r h
    simp only [mapOpt, Option.bind_eq_some, Option.some_inj] at h
    obtain ⟨b, hb, bs, hbs, hr⟩ := h
    rw [← hr]
    simp [ih _ hbs]

theorem mapOpt_getElem? {α β : Type _} (f : α → Option β) (l : List α) :
    ∀ r, mapOpt f l = some r → ∀ i : ℕ, r[i]? = l[i]?.bind f := by
  induction l with
  | nil =>
    intro r h i
    simp only [mapOpt, Option.some_inj] at h
    simp [← h]
  | cons a l ih =>
    intro r h i
    simp only [mapOpt, Option.bind_eq_some, Option.some_inj] at h
    obtain ⟨b, hb, bs, hbs, hr⟩ := h
    cases i with
    | zero => simp [← hr, hb]
    | succ i => simp [← hr, ih _ hbs i]

theorem mapOpt_mem {α β : Type _} (f : α → Option β) (l : List α) :
    ∀ r, mapOpt f l = some r → ∀ b ∈ r, ∃ a ∈ l, f a = some b := by
  induction l with
  | nil =>
    intro r h b hb
    simp only [mapOpt, Option.some_inj] at h
    rw [← h] at hb
    simp at hb
  | cons a l ih =>
    intro r h b hb
    simp only [mapOpt, Option.bind_eq_some, Option.some_inj] at h
    obtain ⟨b', hb', bs, hbs, hr⟩ := h
    rw [← hr] at hb
    rcases List.mem_cons.mp hb with hx | hx
    · exact ⟨a, by simp, by rw [hb', hx]⟩
    · obtain ⟨a', ha', hfa'⟩ := ih _ hbs b hx
      exact ⟨a', by simp [ha'], hfa'⟩

theorem mapOpt_append {α β : Type _} (f : α → Option β) (l₁ l₂ : List α) :
    ∀ r, mapOpt f (l₁ ++ l₂) = some r →
      ∃ r₁ r₂, mapOpt f l₁ = some r₁ ∧ mapOpt f l₂ = some r₂ ∧ r = r₁ ++ r₂ := by
  induction l₁ with
  | nil =>
    intro r h
    exact ⟨[], r, rfl, h, rfl⟩
  | cons a l ih =>
    intro r h
    rw [List.cons_append] at h
    simp only [mapOpt, Option.bind_eq_some, Option.some_inj] at h
    obtain ⟨b, hb, bs, hbs, hr⟩ := h
    obtain ⟨r₁, r₂, h₁, h₂, he⟩ := ih _ hbs
    refine ⟨b :: r₁, r₂, ?_, h₂, ?_⟩
    · simp [mapOpt, hb, h₁]
    · rw [← hr, he]
      rfl

theorem getElem?_append_left {α : Type _} (l₁ l₂ : List α) :
    ∀ n, n < l₁.length → (l₁ ++ l₂)[n]? = l₁[n]? := by
  induction l₁ with
  | nil =>
    intro n h
    simp at h
  | cons a l ih =>
    intro n h
    cases n with
    | zero => simp
    | succ n =>
      simp only [List.cons_append, List.getElem?_cons_succ]
      exact ih n (by simpa using h)

theorem getElem?_append_plus {α : Type _} (l₁ l₂ : List α) :
    ∀ n, (l₁ ++ l₂)[l₁.length + n]? = l₂[n]? := by
  induction l₁ with
  | nil => intro n; simp
  | cons a l ih =>
    intro n
    simp only [List.cons_append, List.length_cons]
    rw [Nat.succ_add]
    simpa using ih n

theorem take_length_append {α : Type _} (l₁ l₂ : List α) :
    (l₁ ++ l₂).take l₁.length = l₁ := by
  induction l₁ with
  | nil => rfl
  | cons a l ih => simp [ih]

theorem drop_length_append {α : Type _} (l₁ l₂ : List α) :
    (l₁ ++ l₂).drop l₁.length = l₂ := by
  induction l₁ with
  | nil => rfl
  | cons a l ih => simp [ih]

theorem flatten_length_uniform {α : Type _} (n : ℕ) (rs : List (List α))
    (h : ∀ r ∈ rs, r.length = n) : rs.flatten.length = rs.length * n := by
  induction rs with
  | nil => simp
  | cons r rs ih =>
    simp only [List.flatten_cons, List.length_append, List.length_cons]
    rw [h r (by simp), ih (fun s hs => h s (by simp [hs]))]
    ring

theorem flatten_getElem?_uniform {α : Type _} (n : ℕ) (rs : List (List α))
    (h : ∀ r ∈ rs, r.length = n) (j : ℕ) (hj : j < n) :
    ∀ i, rs.flatten[i * n + j]? = rs[i]?.bind fun r => r[j]? := by
  induction rs with
  | nil => intro i; simp
  | cons r rs ih =>
    intro i
    have hr : r.length = n := h r (by simp)
    cases i with
    | zero =>
      simp only [List.flatten_cons, Nat.zero_mul, Nat.zero_add]
      rw [getElem?_append_left _ _ j (by rw [hr]; exact hj)]
      simp
    | succ i =>
      simp only [List.flatten_cons]
      have harith : (i + 1) * n + j = r.length + (i * n + j) := by
        rw [hr]; ring
      rw [harith, getElem?_append_plus]
      rw [ih (fun s hs => h s (by simp [hs])) i]
      simp

/-! Dissection lemmas for the generator pipeline. -/

theorem generate_eq (c : MathCtx) (p : ShapeParams) (m : LogMesh)
    (hm : generate_proc_log c p = some m) :
    ∃ rv, mapOpt (buildRing c p) (List.range (p.rings + 1)) = some rv ∧
      m.verts = rv.flatten ∧
      m.faces = ((List.range p.rings).map fun i =>
        (List.range p.verts_per_ring).map fun j =>
          [i * p.verts_per_ring + j,
           i * p.verts_per_ring + (j + 1) % p.verts_per_ring,
           (i + 1) * p.verts_per_ring + (j + 1) % p.verts_per_ring,
           (i + 1) * p.verts_per_ring + j]).flatten := by
  unfold generate_proc_log at hm
  simp only [Option.bind_eq_some, Option.some_inj] at hm
  obtain ⟨rv, hrv, hmesh⟩ := hm
  exact ⟨rv, hrv, by rw [← hmesh], by rw [← hmesh]⟩

theorem buildRing_length (c : MathCtx) (p : ShapeParams) (i : ℕ)
    (r : List Vec3) (h : buildRing c p i = some r) :
    r.length = p.verts_per_ring := by
  unfold buildRing at h
  simp only [Option.bind_eq_some] at h
  obtain ⟨t, _, rr, _, rot, _, h⟩ := h
  rw [mapOpt_length _ _ _ h, List.length_range]

theorem generate_ring_lengths (c : MathCtx) (p : ShapeParams)
    (rv : List (List Vec3))
    (hrv : mapOpt (buildRing c p) (List.range (p.rings + 1)) = some rv) :
    ∀ s ∈ rv, s.length = p.verts_per_ring := by
  intro s hs
  obtain ⟨a, _, ha⟩ := mapOpt_mem _ _ _ hrv s hs
  exact buildRing_length c p a s ha

theorem generate_vertex (c : MathCtx) (p : ShapeParams) (m : LogMesh)
    (hm : generate_proc_log c p = some m) (i j : ℕ)
    (hi : i < p.rings + 1) (hj : j < p.verts_per_ring) :
    ∃ r, buildRing c p i = some r ∧
      m.verts[i * p.verts_per_ring + j]? = r[j]? := by
  obtain ⟨rv, hrv, hverts, _⟩ := generate_eq c p m hm
  have hget : rv[i]? = buildRing c p i := by
    rw [mapOpt_getElem? _ _ _ hrv i, List.getElem?_range hi]
    rfl
  cases hb : buildRing c p i with
  | none =>
    exfalso
    rw [hb] at hget
    have hlen : rv.length ≤ i := by
      by_contra hcon
      push_neg at hcon
      rw [List.getElem?_eq_getElem hcon] at hget
      simp at hget
    rw [mapOpt_length _ _ _ hrv, List.length_range] at hlen
    omega
  | some r =>
    refine ⟨r, rfl, ?_⟩
    rw [hverts,
      flatten_getElem?_uniform p.verts_per_ring rv
        (generate_ring_lengths c p rv hrv) j hj i,
      hget, hb]
    rfl

/-! The claims. -/

/-- Claim C1: for every valid ShapeParameters record (rings at least 1,
verts_per_ring at least 3), the trunk mesh produced by generate_proc_log
has exactly (rings+1)*verts_per_ring vertices and exactly
rings*verts_per_ring quad faces, and for each adjacent ring pair
(i, i+1) and each angular index j the quad is
[A[j], A[(j+1) mod n], B[(j+1) mod n], B[j]], wrapping around at
j = n-1 (ring i vertex j has global index i*n + j). -/
theorem c1_trunk_topology (c : MathCtx) (p : ShapeParams) (m : LogMesh)
    (hr : 1 ≤ p.rings) (hv : 3 ≤ p.verts_per_ring)
    (hm : generate_proc_log c p = some m) :
    m.verts.length = (p.rings + 1) * p.verts_per_ring ∧
    m.faces.length = p.rings * p.verts_per_ring ∧
    m.faces = ((List.range p.rings).map fun i =>
      (List.range p.verts_per_ring).map fun j =>
        [i * p.verts_per_ring + j,
         i * p.verts_per_ring + (j + 1) % p.verts_per_ring,
         (i + 1) * p.verts_per_ring + (j + 1) % p.verts_per_ring,
         (i + 1) * p.verts_per_ring + j]).flatten := by
  obtain ⟨rv, hrv, hverts, hfaces⟩ := generate_eq c p m hm
  refine ⟨?_, ?_, hfaces⟩
  · rw [hverts,
      flatten_length_uniform p.verts_per_ring rv
        (generate_ring_lengths c p rv hrv),
      mapOpt_length _ _ _ hrv, List.length_range]
  · rw [hfaces,
      flatten_length_uniform p.verts_per_ring _ ?_,
      List.length_map, List.length_range]
    intro s hs
    obtain ⟨a, _, ha⟩ := List.mem_map.mp hs
    rw [← ha, List.length_map, List.length_range]

/-- Witness for C1 at the concrete fixtures. -/
theorem c1_trunk_topology_witness :
    1 ≤ wParams.rings ∧ 3 ≤ wParams.verts_per_ring ∧
    generate_proc_log wCtx wParams = some wMesh ∧
    wMesh.verts.length = (wParams.rings + 1) * wParams.verts_per_ring :=
  ⟨by decide, by decide, by with_unfolding_all rfl,
   (c1_trunk_topology wCtx wParams wMesh (by decide) (by decide)
     (by with_unfolding_all rfl)).1⟩

/-- Claim C4: generating twice from the identical parameter record with
the same math primitives yields identical vertex positions and face
index lists; the embedded generator is a pure function of its inputs,
with no hidden state. -/
theorem c4_deterministic (c : MathCtx) (p : ShapeParams) (m₁ m₂ : LogMesh)
    (h₁ : generate_proc_log c p = some m₁)
    (h₂ : generate_proc_log c p = some m₂) :
    m₁.verts = m₂.verts ∧ m₁.faces = m₂.faces := by
  rw [h₁] at h₂
  injection h₂ with h
  rw [h]
  exact ⟨rfl, rfl⟩

/-- Witness for C4 at the concrete fixtures. -/
theorem c4_deterministic_witness :
    generate_proc_log wCtx wParams = some wMesh ∧
    (wMesh.verts = wMesh.verts ∧ wMesh.faces = wMesh.faces) :=
  ⟨by with_unfolding_all rfl,
   c4_deterministic wCtx wParams wMesh wMesh
     (by with_unfolding_all rfl) (by with_unfolding_all rfl)⟩

/-- Claim C7: for every R greater than 0 and t in [0,1], the quadratic
taper with radius_start = radius_center = radius_end = R evaluates to
exactly R, so the profile is perfectly cylindrical. -/
theorem c7_quadratic_constant (c : MathCtx) (p : ShapeParams) (t R : ℚ)
    (hR : 0 < R) (ht0 : 0 ≤ t) (ht1 : t ≤ 1)
    (hshape : p.taper_shape = "quadratic")
    (h1 : p.radius_start = R) (h2 : p.radius_center = R)
    (h3 : p.radius_end = R) :
    taperRadius c p t = R := by
  unfold taperRadius
  rw [hshape, h1, h2, h3]
  rw [if_neg (by decide), if_neg (by decide)]
  ring

/-- Witness for C7 at the concrete fixtures. -/
theorem c7_quadratic_constant_witness :
    (0 : ℚ) < 1/2 ∧ (0 : ℚ) ≤ 1/2 ∧ (1/2 : ℚ) ≤ 1 ∧
    wParams.taper_shape = "quadratic" ∧
    taperRadius wCtx wParams (1/2) = 1/2 :=
  ⟨by norm_num, by norm_num, by norm_num, rfl,
   c7_quadratic_constant wCtx wParams (1/2) (1/2) (by norm_num)
     (by norm_num) (by norm_num) rfl rfl rfl rfl⟩

/-- Claim C10 (implicit): the centerline evaluated at the base ring
(t = 0) is (0, curve_strength, 0), because the Y component is
curve_strength * cos 0 = curve_strength regardless of curve_count. -/
theorem c10_base_centerline (c : MathCtx) (p : ShapeParams)
    (hs : c.msin 0 = 0) (hc : c.mcos 0 = 1) :
    centerline c p 0 = ⟨0, p.curve_strength, 0⟩ := by
  simp [centerline, hs, hc]

/-- Witness for C10 at the concrete fixtures. -/
theorem c10_base_centerline_witness :
    wCtx.msin 0 = 0 ∧ wCtx.mcos 0 = 1 ∧
    centerline wCtx wParams 0 = ⟨0, wParams.curve_strength, 0⟩ :=
  ⟨rfl, rfl, c10_base_centerline wCtx wParams rfl rfl⟩

/-- Claim C2 fails on the code: with groove_count = 0 (and any other
parameters, in particular all-valid ones), the angular-period
computation ang_per = 2*pi/groove_count divides by zero at the very
first vertex of the very first ring, so generation raises instead of
leaving the radii unmodified.  In the embedding the run yields none. -/
theorem c2_groove_zero_division (c : MathCtx) (p : ShapeParams)
    (hr : 1 ≤ p.rings) (hv : 1 ≤ p.verts_per_ring)
    (hg : p.groove_count = 0) :
    generate_proc_log c p = none := by
  have hlv : ∀ rx ry t : ℚ, localVertex c p rx ry t 0 = none := by
    intro rx ry t
    unfold localVertex vertexRadii
    have hden : ((p.verts_per_ring : ℕ) : ℚ) ≠ 0 :=
      Nat.cast_ne_zero.mpr (by omega)
    have hgc : ((p.groove_count : ℕ) : ℚ) = 0 := by
      rw [hg]; simp
    simp [pydiv, hden, hgc]
  have hb0 : buildRing c p 0 = none := by
    unfold buildRing
    cases hdiv : pydiv ((0 : ℕ) : ℚ) ((p.rings : ℕ) : ℚ) with
    | none => rfl
    | some t =>
      rw [Option.some_bind]
      cases hrr : ringRadii c p 0 t with
      | none => rfl
      | some rr =>
        rw [Option.some_bind]
        cases hrot : rotationMatrix c (pyRadians c.mpi p.twist_angle * t)
            p.twist_direction with
        | none => rfl
        | some rot =>
          rw [Option.some_bind]
          obtain ⟨k, hk⟩ : ∃ k, p.verts_per_ring = k + 1 :=
            ⟨p.verts_per_ring - 1, by omega⟩
          rw [hk, List.range_succ_eq_map]
          simp [mapOpt, hlv]
  unfold generate_proc_log
  rw [List.range_succ_eq_map]
  simp [mapOpt, hb0]

/-- Witness for C2 at concrete fixtures: the otherwise-valid record with
groove carving disabled makes the generator fail. -/
theorem c2_groove_zero_division_witness :
    1 ≤ pGroove0.rings ∧ 1 ≤ pGroove0.verts_per_ring ∧
    pGroove0.groove_count = 0 ∧
    generate_proc_log wCtx pGroove0 = none :=
  ⟨by decide, by decide, by decide,
   c2_groove_zero_division wCtx pGroove0 (by decide) (by decide) (by decide)⟩

/-- Claim C3 fails on the code: no range validation exists anywhere, so
a record with ellipse_ratio = 10 (documented range 0.1 to 5.0), used by
every ring through oval_region_fraction = 1, is happily turned into a
complete mesh instead of failing before geometry is built.  This
theorem evaluates the generator at that out-of-range record (with
rings = 3 and verts_per_ring = 3 inside their documented ranges, so
every stitched quad is distinct and the run matches the source): it
succeeds and produces the full set of vertices and faces. -/
theorem c3_no_validation :
    (5 : ℚ) < pBadRatio.ellipse_ratio ∧
    generate_proc_log wCtx pBadRatio = some wMeshBad ∧
    wMeshBad.verts.length = (pBadRatio.rings + 1) * pBadRatio.verts_per_ring ∧
    wMeshBad.faces.length = pBadRatio.rings * pBadRatio.verts_per_ring ∧
    wMeshBad.verts ≠ [] :=
  ⟨by norm_num [pBadRatio, wParams], by with_unfolding_all rfl,
   by with_unfolding_all decide, by with_unfolding_all decide,
   by with_unfolding_all decide⟩

/-- Claim C8: given the radii pair b produced by the taper and ellipse
steps, ring i receives the flange bump (both radii increased by exactly
flange_width) precisely when flange_count is nonzero and
i mod max(1, rings / flange_count) = 0, with / integer division; and
with flange_count = 0 the radii pass through unchanged. -/
theorem c8_flange_rule (c : MathCtx) (p : ShapeParams) (i : ℕ) (t : ℚ)
    (b : ℚ × ℚ)
    (hb : ellipseRadii p (taperRadius c p t) t = some b) :
    ringRadii c p i t =
      some (if p.flange_count ≠ 0 ∧ i % max 1 (p.rings / p.flange_count) = 0
        then (b.1 + p.flange_width, b.2 + p.flange_width) else b) ∧
    (p.flange_count = 0 → ringRadii c p i t = some b) := by
  constructor
  · unfold ringRadii
    rw [hb]
    rfl
  · intro h0
    unfold ringRadii flangeAdjust
    rw [hb]
    simp [h0]

/-- Witness for C8 at concrete fixtures: with rings = 2 and one flange,
ring 0 is an exact multiple of max(1, 2/1) = 2 and receives the bump. -/
theorem c8_flange_rule_witness :
    ellipseRadii pFlange (taperRadius wCtx pFlange 0) 0 = some (1/2, 1/2) ∧
    ringRadii wCtx pFlange 0 0 =
      some (if pFlange.flange_count ≠ 0 ∧
          0 % max 1 (pFlange.rings / pFlange.flange_count) = 0
        then (((1:ℚ)/2, (1:ℚ)/2).1 + pFlange.flange_width,
              ((1:ℚ)/2, (1:ℚ)/2).2 + pFlange.flange_width)
        else ((1:ℚ)/2, (1:ℚ)/2)) :=
  ⟨by with_unfolding_all rfl,
   (c8_flange_rule wCtx pFlange 0 0 (1/2, 1/2)
     (by with_unfolding_all rfl)).1⟩

/-- Claim C9 as stated is false: the bark-roughness contribution added
to rx does equal the one added to ry, but adding the same value to both
radii does change the ratio rx/ry whenever it is nonzero and the radii
differ.  At rx = 2, ry = 1 with unit noise the output radii are (3, 2),
and 3/2 differs from 2/1. -/
theorem c9_ratio_counterexample :
    vertexRadii wCtx9 pNoise 2 1 0 0 = some (3, 2) ∧
    ¬ ((3 : ℚ) / 2 = 2 / 1) :=
  ⟨by with_unfolding_all rfl, by norm_num⟩

/-- Claim C9 amended: the bark-roughness contribution added to rx
equals the contribution added to ry (both receive the same value
noise3(t*noise_scale, theta*noise_scale, 0) * bark_roughness_depth *
bark_roughness_level, plus the shared groove term), and this identical
addition preserves the difference rx - ry (not, in general, the ratio
rx/ry). -/
theorem c9_equal_contribution (c : MathCtx) (p : ShapeParams)
    (rx ry t theta rX rY : ℚ)
    (h : vertexRadii c p rx ry t theta = some (rX, rY)) :
    (∃ g, (g = 0 ∨ g = -p.groove_depth) ∧
      rX = rx + c.mnoise ⟨t * p.noise_scale, theta * p.noise_scale, 0⟩ *
        p.bark_roughness_depth * p.bark_roughness_level + g ∧
      rY = ry + c.mnoise ⟨t * p.noise_scale, theta * p.noise_scale, 0⟩ *
        p.bark_roughness_depth * p.bark_roughness_level + g) ∧
    rX - rx = rY - ry := by
  unfold vertexRadii at h
  simp only [Option.bind_eq_some, Option.some_inj, Prod.mk.injEq] at h
  obtain ⟨ap, hap, mm, hmm, h1, h2⟩ := h
  constructor
  · refine ⟨if |mm - ap / 2| < p.groove_width / 2 then -p.groove_depth
      else 0, ?_, ?_, ?_⟩
    · split <;> simp
    · rw [← h1]
    · rw [← h2]
  · rw [← h1, ← h2]
    ring

/-- Witness for the amended C9 at concrete fixtures. -/
theorem c9_equal_contribution_witness :
    vertexRadii wCtx9 pNoise 2 1 0 0 = some (3, 2) ∧
    ((∃ g, (g = 0 ∨ g = -pNoise.groove_depth) ∧
      (3 : ℚ) = 2 + wCtx9.mnoise ⟨0 * pNoise.noise_scale,
        0 * pNoise.noise_scale, 0⟩ *
        pNoise.bark_roughness_depth * pNoise.bark_roughness_level + g ∧
      (2 : ℚ) = 1 + wCtx9.mnoise ⟨0 * pNoise.noise_scale,
        0 * pNoise.noise_scale, 0⟩ *
        pNoise.bark_roughness_depth * pNoise.bark_roughness_level + g) ∧
     (3 : ℚ) - 2 = 2 - 1) :=
  ⟨by with_unfolding_all rfl,
   c9_equal_contribution wCtx9 pNoise 2 1 0 0 3 2
     (by with_unfolding_all rfl)⟩

/-- Claim C5: for ring i at t = i/rings and angular index j, the
emitted world-space vertex is the twist rotation R(t) (rotation by
twist_angle*t degrees about the chosen axis) applied to the ring-local
point, plus the centerline point
(curve_strength*sin(2 pi curve_count t),
curve_strength*cos(2 pi curve_count t), length*t), plus the constant
eccentric offset (eccentricity_offset*cos(ea),
eccentricity_offset*sin(ea), 0) with ea the eccentricity angle in
radians; the rotation is applied before the translation is added. -/
theorem c5_world_vertex (c : MathCtx) (p : ShapeParams) (m : LogMesh)
    (i j : ℕ) (t : ℚ) (rr : ℚ × ℚ) (rot : Mat3) (lv : Vec3)
    (hm : generate_proc_log c p = some m)
    (hi : i ≤ p.rings) (hj : j < p.verts_per_ring)
    (ht : pydiv (i : ℚ) ((p.rings : ℕ) : ℚ) = some t)
    (hrr : ringRadii c p i t = some rr)
    (hrot : rotationMatrix c (pyRadians c.mpi p.twist_angle * t)
      p.twist_direction = some rot)
    (hlv : localVertex c p rr.1 rr.2 t j = some lv) :
    m.verts[i * p.verts_per_ring + j]? =
      some (matApply rot lv +
        (Vec3.mk (p.curve_strength * c.msin (2 * c.mpi * (p.curve_count : ℚ) * t))
          (p.curve_strength * c.mcos (2 * c.mpi * (p.curve_count : ℚ) * t))
          (p.length * t) +
         Vec3.mk
          (p.eccentricity_offset * c.mcos (pyRadians c.mpi p.eccentricity_angle))
          (p.eccentricity_offset * c.msin (pyRadians c.mpi p.eccentricity_angle))
          0)) := by
  obtain ⟨r, hb, hget⟩ := generate_vertex c p m hm i j (by omega) hj
  rw [hget]
  unfold buildRing at hb
  simp only [Option.bind_eq_some] at hb
  obtain ⟨t', ht', rr', hrr', rot', hrot', hb⟩ := hb
  rw [ht] at ht'
  injection ht' with ht'
  subst ht'
  rw [hrr] at hrr'
  injection hrr' with hrr'
  subst hrr'
  rw [hrot] at hrot'
  injection hrot' with hrot'
  subst hrot'
  rw [mapOpt_getElem? _ _ _ hb j, List.getElem?_range hj]
  rw [Option.some_bind, hlv]
  rfl

/-- Witness for C5 at the concrete fixtures: ring 1, angular index 0. -/
theorem c5_world_vertex_witness :
    generate_proc_log wCtx wParams = some wMesh ∧
    wMesh.verts[1 * wParams.verts_per_ring + 0]? =
      some (matApply wRot ⟨1/2, 0, 0⟩ +
        (Vec3.mk
          (wParams.curve_strength *
            wCtx.msin (2 * wCtx.mpi * (wParams.curve_count : ℚ) * 1))
          (wParams.curve_strength *
            wCtx.mcos (2 * wCtx.mpi * (wParams.curve_count : ℚ) * 1))
          (wParams.length * 1) +
         Vec3.mk
          (wParams.eccentricity_offset *
            wCtx.mcos (pyRadians wCtx.mpi wParams.eccentricity_angle))
          (wParams.eccentricity_offset *
            wCtx.msin (pyRadians wCtx.mpi wParams.eccentricity_angle))
          0)) :=
  ⟨by with_unfolding_all rfl,
   c5_world_vertex wCtx wParams wMesh 1 0 1 (1/2, 1/2) wRot ⟨1/2, 0, 0⟩
     (by with_unfolding_all rfl) (by decide) (by decide)
     (by with_unfolding_all rfl) (by with_unfolding_all rfl)
     (by with_unfolding_all rfl) (by with_unfolding_all rfl)⟩

/-- Claim C6: each end cap is a single n-gon face over exactly the
verts_per_ring points of the corresponding edge ring (ring 0 for the
start cap, ring rings for the end cap); the start cap winds over those
points in reverse angular order and the end cap in unreversed angular
order. -/
theorem c6_caps (c : MathCtx) (p : ShapeParams) (m : LogMesh)
    (r0 rN : List Vec3)
    (hm : generate_proc_log c p = some m)
    (hr : 1 ≤ p.rings) (hv : 1 ≤ p.verts_per_ring)
    (h0 : buildRing c p 0 = some r0)
    (hN : buildRing c p p.rings = some rN) :
    cap_start m p.verts_per_ring =
      { verts := r0, face := (List.range p.verts_per_ring).reverse } ∧
    cap_end m p.verts_per_ring =
      { verts := rN, face := List.range p.verts_per_ring } := by
  obtain ⟨rv, hrv, hverts, _⟩ := generate_eq c p m hm
  have hlen0 : r0.length = p.verts_per_ring := buildRing_length c p 0 r0 h0
  have hlenN : rN.length = p.verts_per_ring :=
    buildRing_length c p p.rings rN hN
  -- start cap: the first verts_per_ring vertices are exactly ring 0
  have hget0 : rv[0]? = some r0 := by
    rw [mapOpt_getElem? _ _ _ hrv 0, List.getElem?_range (by omega)]
    rw [Option.some_bind, h0]
  obtain ⟨tail, htail⟩ : ∃ tail, rv = r0 :: tail := by
    cases rv with
    | nil => simp at hget0
    | cons a tl =>
      simp only [List.getElem?_cons_zero, Option.some_inj] at hget0
      exact ⟨tl, by rw [hget0]⟩
  have htake : m.verts.take p.verts_per_ring = r0 := by
    rw [hverts, htail, List.flatten_cons, ← hlen0, take_length_append]
  have hcapstart : cap_start m p.verts_per_ring =
      { verts := r0, face := (List.range p.verts_per_ring).reverse } := by
    unfold cap_start make_cap
    rw [htake, hlen0]
    rfl
  -- end cap: the last verts_per_ring vertices are exactly ring rings
  rw [List.range_succ] at hrv
  obtain ⟨rv₁, rv₂, h₁, h₂, he⟩ := mapOpt_append _ _ _ _ hrv
  have hrv₂ : rv₂ = [rN] := by
    simp only [mapOpt, hN, Option.some_bind, Option.some_inj] at h₂
    rw [← h₂]
  have hflat : m.verts = rv₁.flatten ++ rN := by
    rw [hverts, he, hrv₂]
    simp
  have hlen₁ : rv₁.flatten.length = p.rings * p.verts_per_ring := by
    rw [flatten_length_uniform p.verts_per_ring rv₁ ?_,
      mapOpt_length _ _ _ h₁, List.length_range]
    intro s hs
    obtain ⟨a, _, ha⟩ := mapOpt_mem _ _ _ h₁ s hs
    exact buildRing_length c p a s ha
  have hdrop : m.verts.drop (m.verts.length - p.verts_per_ring) = rN := by
    rw [hflat]
    have hidx : (rv₁.flatten ++ rN).length - p.verts_per_ring =
        rv₁.flatten.length := by
      rw [List.length_append, hlenN]
      omega
    rw [hidx, drop_length_append]
  have hcapend : cap_end m p.verts_per_ring =
      { verts := rN, face := List.range p.verts_per_ring } := by
    unfold cap_end make_cap
    rw [hdrop, hlenN]
    rfl
  exact ⟨hcapstart, hcapend⟩

/-- Witness for C6 at the concrete fixtures. -/
theorem c6_caps_witness :
    generate_proc_log wCtx wParams = some wMesh ∧
    (cap_start wMesh wParams.verts_per_ring =
      { verts := [⟨1/2, 0, 0⟩, ⟨1/2, 0, 0⟩, ⟨1/2, 0, 0⟩],
        face := (List.range wParams.verts_per_ring).reverse } ∧
     cap_end wMesh wParams.verts_per_ring =
      { verts := [⟨1/2, 0, 4⟩, ⟨1/2, 0, 4⟩, ⟨1/2, 0, 4⟩],
        face := List.range wParams.verts_per_ring }) :=
  ⟨by with_unfolding_all rfl,
   c6_caps wCtx wParams wMesh
     [⟨1/2, 0, 0⟩, ⟨1/2, 0, 0⟩, ⟨1/2, 0, 0⟩]
     [⟨1/2, 0, 4⟩, ⟨1/2, 0, 4⟩, ⟨1/2, 0, 4⟩]
     (by with_unfolding_all rfl) (by decide) (by decide)
     (by with_unfolding_all rfl) (by with_unfolding_all rfl)⟩

end ProcLog
